import Mathlib

/-!
Verification of `magpylib/_src/fields/special_elliptic.py`.

The module under study exposes four wrapper functions (`ellipeinc`,
`ellipkinc`, `ellipe`, `ellipk`) that route array-like inputs through
`array_api_extra.lazy_apply` to the scipy special-function backend
(`scipy.special.ellipeinc` / `ellipkinc` / `ellipe` / `ellipk`), with
`as_numpy=True`.

The wrappers themselves are in the source; the dispatch helper
(`lazy_apply`), numpy broadcasting, and the scipy elliptic integrals are
external collaborators and are modelled here from the specification:
arrays are a framework tag plus a plain numeric array; the elliptic
integrals are their defining integrals over the reals.
-/

open Real MeasureTheory Set

namespace SpecialElliptic

/-- A numpy-style array shape: list of dimension sizes. -/
abbrev Shape := List Nat

/-- Modelled from the spec: numpy broadcasting. Pad a shape on the left
with size-1 dimensions up to rank `n`. -/
def padTo (n : Nat) (s : Shape) : Shape :=
  List.replicate (n - s.length) 1 ++ s

/-- Modelled from the spec: numpy broadcasting of a single pair of
dimensions. Two sizes are compatible when they are equal or one is 1;
the result is the larger one. -/
def bdim (a b : Nat) : Option Nat :=
  if a = 1 then some b else if b = 1 then some a else if a = b then some a else none

/-- Modelled from the spec: numpy broadcasting of two shapes of equal
rank, dimension by dimension. -/
def bdims : Shape → Shape → Option Shape
  | [], [] => some []
  | a :: as, b :: bs =>
    match bdim a b, bdims as bs with
    | some d, some ds => some (d :: ds)
    | _, _ => none
  | _, _ => none

/-- Modelled from the spec: the numpy broadcast of two shapes — align at
the right, pad the shorter with 1s, then combine dimensionwise; `none`
when the shapes are broadcast-incompatible. -/
def broadcastShape (s t : Shape) : Option Shape :=
  bdims (padTo (max s.length t.length) s) (padTo (max s.length t.length) t)

/-- A plain numeric (numpy-like) array: a shape together with the value
stored at each multi-index. -/
structure PlainArray where
  shape : Shape
  data : List Nat → ℝ

/-- Modelled from the spec: the multi-index of the operand that a
broadcast output multi-index `i` reads — drop the leading broadcast
dimensions, and read index 0 along every size-1 dimension. -/
def bcastIndex (s : Shape) (i : List Nat) : List Nat :=
  List.zipWith (fun d k => if d = 1 then 0 else k) s (i.drop (i.length - s.length))

/-- Modelled from the spec: a scipy-style elementwise unary ufunc —
apply `f` to every element, preserving the shape. -/
def map1 (f : ℝ → ℝ) (a : PlainArray) : PlainArray :=
  ⟨a.shape, fun i => f (a.data i)⟩

/-- Modelled from the spec: a scipy-style elementwise binary ufunc —
broadcast the two shapes (failing with a shape-mismatch error when they
are incompatible) and apply `f` elementwise. -/
def map2 (f : ℝ → ℝ → ℝ) (a b : PlainArray) : Except String PlainArray :=
  match broadcastShape a.shape b.shape with
  | none => Except.error "shape mismatch"
  | some s =>
    Except.ok ⟨s, fun i => f (a.data (bcastIndex a.shape i)) (b.data (bcastIndex b.shape i))⟩

/-- Integrand of the (incomplete and complete) elliptic integral of the
first kind in the parameter-`m` convention. -/
noncomputable def Kintegrand (m θ : ℝ) : ℝ :=
  1 / Real.sqrt (1 - m * Real.sin θ ^ 2)

/-- Integrand of the (incomplete and complete) elliptic integral of the
second kind in the parameter-`m` convention. -/
noncomputable def Eintegrand (m θ : ℝ) : ℝ :=
  Real.sqrt (1 - m * Real.sin θ ^ 2)

/-- Modelled from the spec: `scipy.special.ellipkinc` on scalars — the
incomplete elliptic integral of the first kind F(phi, m), as its
defining integral. -/
noncomputable def sp_ellipkinc (phi m : ℝ) : ℝ :=
  ∫ θ in (0:ℝ)..phi, Kintegrand m θ

/-- Modelled from the spec: `scipy.special.ellipeinc` on scalars — the
incomplete elliptic integral of the second kind E(phi, m), as its
defining integral. -/
noncomputable def sp_ellipeinc (phi m : ℝ) : ℝ :=
  ∫ θ in (0:ℝ)..phi, Eintegrand m θ

/-- Modelled from the spec: `scipy.special.ellipk` on scalars — the
complete elliptic integral of the first kind K(m), the incomplete
integral at amplitude π/2. -/
noncomputable def sp_ellipk (m : ℝ) : ℝ :=
  ∫ θ in (0:ℝ)..(π / 2), Kintegrand m θ

/-- Modelled from the spec: `scipy.special.ellipe` on scalars — the
complete elliptic integral of the second kind E(m), the incomplete
integral at amplitude π/2. -/
noncomputable def sp_ellipe (m : ℝ) : ℝ :=
  ∫ θ in (0:ℝ)..(π / 2), Eintegrand m θ

/-- Modelled from the spec: the numpy-level `scipy.special.ellipkinc`
ufunc (elementwise with broadcasting). -/
noncomputable def np_ellipkinc : PlainArray → PlainArray → Except String PlainArray :=
  map2 sp_ellipkinc

/-- Modelled from the spec: the numpy-level `scipy.special.ellipeinc`
ufunc (elementwise with broadcasting). -/
noncomputable def np_ellipeinc : PlainArray → PlainArray → Except String PlainArray :=
  map2 sp_ellipeinc

/-- Modelled from the spec: the numpy-level `scipy.special.ellipk`
ufunc (elementwise). -/
noncomputable def np_ellipk : PlainArray → PlainArray :=
  map1 sp_ellipk

/-- Modelled from the spec: the numpy-level `scipy.special.ellipe`
ufunc (elementwise). -/
noncomputable def np_ellipe : PlainArray → PlainArray :=
  map1 sp_ellipe

/-- An array-like value as the callers see it: a framework tag (numpy,
torch, jax, …) together with its plain numeric content. -/
structure XArray where
  framework : String
  plain : PlainArray

/-- Modelled from the spec: conversion of an array-like input into the
plain numeric array form the backend accepts. -/
def materialize (x : XArray) : PlainArray := x.plain

/-- Modelled from the spec: re-wrapping of a plain numeric result into
the framework of the original caller-supplied array. -/
def wrap (p : PlainArray) (orig : XArray) : XArray :=
  ⟨orig.framework, p⟩

/-- Modelled from the spec: `array_api_extra.lazy_apply` for a
one-argument backend function — detect the caller's framework,
materialize the input (`as_numpy` requests plain numpy arrays), invoke
the backend once, and re-wrap the result into the caller's framework. -/
def lazy_apply1 (f : PlainArray → PlainArray) (x : XArray) (asNumpy : Bool) : XArray :=
  wrap (f (materialize x)) x

/-- Modelled from the spec: `array_api_extra.lazy_apply` for a
two-argument backend function; a backend failure propagates unchanged. -/
def lazy_apply2 (f : PlainArray → PlainArray → Except String PlainArray)
    (x y : XArray) (asNumpy : Bool) : Except String XArray :=
  match f (materialize x) (materialize y) with
  | Except.error e => Except.error e
  | Except.ok p => Except.ok (wrap p x)

/-- Source `ellipeinc`: `xpx.lazy_apply(sp.special.ellipeinc, phi, m, as_numpy=True)`. -/
noncomputable def ellipeinc (phi m : XArray) : Except String XArray :=
  lazy_apply2 np_ellipeinc phi m true

/-- Source `ellipkinc`: `xpx.lazy_apply(sp.special.ellipkinc, phi, m, as_numpy=True)`. -/
noncomputable def ellipkinc (phi m : XArray) : Except String XArray :=
  lazy_apply2 np_ellipkinc phi m true

/-- Source `ellipe`: `xpx.lazy_apply(sp.special.ellipe, m, as_numpy=True)`. -/
noncomputable def ellipe (m : XArray) : XArray :=
  lazy_apply1 np_ellipe m true

/-- Source `ellipk`: `xpx.lazy_apply(sp.special.ellipk, m, as_numpy=True)`. -/
noncomputable def ellipk (m : XArray) : XArray :=
  lazy_apply1 np_ellipk m true

/-- Spec-side statement (for the refinement claim), following the
spec's words: a one-argument round trip — the result's framework
matches the input's framework and its numeric values are those of the
backend evaluated directly on the materialized input. -/
def specRoundTrip1 (f : PlainArray → PlainArray) (x r : XArray) : Prop :=
  r.framework = x.framework ∧ r.plain = f (materialize x)

/-- Spec-side statement (for the refinement claim): the two-argument
round trip — whenever the backend succeeds on the materialized inputs,
the operation returns exactly that numeric result wrapped in the
caller's framework. -/
def specRoundTrip2 (f : PlainArray → PlainArray → Except String PlainArray)
    (x y : XArray) (r : Except String XArray) : Prop :=
  ∀ p, f (materialize x) (materialize y) = Except.ok p →
    r = Except.ok (XArray.mk x.framework p)

/-- A scalar (rank-0) array-like value carrying one number. -/
def scalarArr (v : ℝ) : XArray :=
  ⟨"numpy", ⟨[], fun _ => v⟩⟩

/-- A shape-[2,1] zero array (used as a concrete broadcast witness). -/
def arrA : XArray := ⟨"numpy", ⟨[2, 1], fun _ => 0⟩⟩

/-- A shape-[3] zero array (broadcast-compatible with `arrA`). -/
def arrB : XArray := ⟨"numpy", ⟨[3], fun _ => 0⟩⟩

/-- A shape-[2] zero array (broadcast-incompatible with `arrD`). -/
def arrC : XArray := ⟨"torch", ⟨[2], fun _ => 0⟩⟩

/-- A shape-[3] zero array (broadcast-incompatible with `arrC`). -/
def arrD : XArray := ⟨"torch", ⟨[3], fun _ => 0⟩⟩

lemma map2_ok (f : ℝ → ℝ → ℝ) (a b : PlainArray) (s : Shape)
    (hs : broadcastShape a.shape b.shape = some s) :
    map2 f a b =
      Except.ok ⟨s, fun i => f (a.data (bcastIndex a.shape i)) (b.data (bcastIndex b.shape i))⟩ := by
  unfold map2
  rw [hs]

lemma map2_err (f : ℝ → ℝ → ℝ) (a b : PlainArray)
    (hs : broadcastShape a.shape b.shape = none) :
    map2 f a b = Except.error "shape mismatch" := by
  unfold map2
  rw [hs]

lemma lazy_apply2_error_iff (f : PlainArray → PlainArray → Except String PlainArray)
    (x y : XArray) (e : String) :
    lazy_apply2 f x y true = Except.error e ↔
      f (materialize x) (materialize y) = Except.error e := by
  unfold lazy_apply2
  rcases h : f (materialize x) (materialize y) with e₀ | p <;> simp [h]

lemma lazy_apply2_ok (f : PlainArray → PlainArray → Except String PlainArray)
    (x y : XArray) (p : PlainArray) (hp : f (materialize x) (materialize y) = Except.ok p) :
    lazy_apply2 f x y true = Except.ok (wrap p x) := by
  unfold lazy_apply2
  rw [hp]

/-- C10: each of the four source functions is a pure pass-through — a
single call to `lazy_apply` with the corresponding backend routine, the
arguments forwarded unchanged and in order, the numpy-conversion flag
set, and the helper's result returned unchanged. -/
theorem c10_pass_through (phi m x : XArray) :
    ellipeinc phi m = lazy_apply2 np_ellipeinc phi m true ∧
    ellipkinc phi m = lazy_apply2 np_ellipkinc phi m true ∧
    ellipe x = lazy_apply1 np_ellipe x true ∧
    ellipk x = lazy_apply1 np_ellipk x true :=
  ⟨rfl, rfl, rfl, rfl⟩

/-- C7: the four operations are deterministic and stateless — equal
inputs give identical outputs, with no hidden state between calls. -/
theorem c7_deterministic (m₁ m₂ p₁ p₂ : XArray) (hm : m₁ = m₂) (hp : p₁ = p₂) :
    ellipk m₁ = ellipk m₂ ∧ ellipe m₁ = ellipe m₂ ∧
    ellipkinc p₁ m₁ = ellipkinc p₂ m₂ ∧ ellipeinc p₁ m₁ = ellipeinc p₂ m₂ := by
  subst hm
  subst hp
  exact ⟨rfl, rfl, rfl, rfl⟩

/-- C7 witness: determinism at a concrete input. -/
theorem c7_deterministic_witness :
    ellipk arrA = ellipk arrA ∧ ellipe arrA = ellipe arrA ∧
    ellipkinc arrB arrA = ellipkinc arrB arrA ∧ ellipeinc arrB arrA = ellipeinc arrB arrA :=
  c7_deterministic arrA arrA arrB arrB rfl rfl

/-- C1: round-trip of array representation — each operation returns its
result in the caller's array framework, with numeric values equal to
direct backend evaluation on the materialized inputs. -/
theorem c1_round_trip (m phi : XArray) :
    specRoundTrip1 np_ellipk m (ellipk m) ∧
    specRoundTrip1 np_ellipe m (ellipe m) ∧
    specRoundTrip2 np_ellipkinc phi m (ellipkinc phi m) ∧
    specRoundTrip2 np_ellipeinc phi m (ellipeinc phi m) := by
  refine ⟨⟨rfl, rfl⟩, ⟨rfl, rfl⟩, ?_, ?_⟩ <;>
  · intro p hp
    simp only [ellipkinc, ellipeinc]
    rw [lazy_apply2_ok _ _ _ _ hp]
    rfl

/-- C1 witness: the round trip at concrete inputs. -/
theorem c1_round_trip_witness :
    specRoundTrip1 np_ellipk arrA (ellipk arrA) ∧
    specRoundTrip2 np_ellipkinc arrA arrB (ellipkinc arrA arrB) :=
  ⟨(c1_round_trip arrA arrB).1, (c1_round_trip arrB arrA).2.2.1⟩

/-- C5: for broadcast-compatible input shapes the two-argument
operations return an array of exactly the broadcast shape; for
incompatible shapes they fail with the shape-mismatch error. -/
theorem c5_broadcast (phi m : XArray) :
    (∀ s, broadcastShape phi.plain.shape m.plain.shape = some s →
      (∃ r, ellipkinc phi m = Except.ok r ∧ r.plain.shape = s) ∧
      (∃ r, ellipeinc phi m = Except.ok r ∧ r.plain.shape = s)) ∧
    (broadcastShape phi.plain.shape m.plain.shape = none →
      ellipkinc phi m = Except.error "shape mismatch" ∧
      ellipeinc phi m = Except.error "shape mismatch") := by
  constructor
  · intro s hs
    constructor
    · refine ⟨wrap ⟨s, fun i => sp_ellipkinc (phi.plain.data (bcastIndex phi.plain.shape i))
        (m.plain.data (bcastIndex m.plain.shape i))⟩ phi, ?_, rfl⟩
      unfold ellipkinc
      exact lazy_apply2_ok _ _ _ _ (map2_ok sp_ellipkinc _ _ s hs)
    · refine ⟨wrap ⟨s, fun i => sp_ellipeinc (phi.plain.data (bcastIndex phi.plain.shape i))
        (m.plain.data (bcastIndex m.plain.shape i))⟩ phi, ?_, rfl⟩
      unfold ellipeinc
      exact lazy_apply2_ok _ _ _ _ (map2_ok sp_ellipeinc _ _ s hs)
  · intro hn
    constructor
    · exact (lazy_apply2_error_iff _ _ _ _).mpr (map2_err sp_ellipkinc _ _ hn)
    · exact (lazy_apply2_error_iff _ _ _ _).mpr (map2_err sp_ellipeinc _ _ hn)

/-- C5 witness: shapes [2,1] and [3] broadcast to [2,3], and the
operation indeed returns an ok result of shape [2,3]. -/
theorem c5_broadcast_witness :
    ∃ r, ellipkinc arrA arrB = Except.ok r ∧ r.plain.shape = [2, 3] :=
  ((c5_broadcast arrA arrB).1 [2, 3] rfl).1

/-- C6: every backend or dispatch-helper failure propagates unchanged
through the wrappers, and the wrappers add no validation of their own —
they never fail on an input the backend accepts. -/
theorem c6_error_passthrough (phi m x : XArray) (e : String) :
    (ellipkinc phi m = Except.error e ↔
      np_ellipkinc (materialize phi) (materialize m) = Except.error e) ∧
    (ellipeinc phi m = Except.error e ↔
      np_ellipeinc (materialize phi) (materialize m) = Except.error e) ∧
    (∀ p, np_ellipkinc (materialize phi) (materialize m) = Except.ok p →
      ellipkinc phi m = Except.ok (wrap p phi)) ∧
    (∀ p, np_ellipeinc (materialize phi) (materialize m) = Except.ok p →
      ellipeinc phi m = Except.ok (wrap p phi)) ∧
    ellipk x = wrap (np_ellipk (materialize x)) x ∧
    ellipe x = wrap (np_ellipe (materialize x)) x := by
  refine ⟨lazy_apply2_error_iff _ _ _ _, lazy_apply2_error_iff _ _ _ _, ?_, ?_, rfl, rfl⟩
  · intro p hp
    exact lazy_apply2_ok _ _ _ _ hp
  · intro p hp
    exact lazy_apply2_ok _ _ _ _ hp

/-- C6 witness: at broadcast-incompatible shapes ([2] against [3]) the
backend's shape-mismatch error surfaces unchanged from the wrapper. -/
theorem c6_error_passthrough_witness :
    ellipkinc arrC arrD = Except.error "shape mismatch" :=
  (c6_error_passthrough arrC arrD arrC "shape mismatch").1.mpr rfl

lemma fact_pos {m : ℝ} (h0 : 0 ≤ m) (h1 : m < 1) (θ : ℝ) :
    0 < 1 - m * Real.sin θ ^ 2 := by
  have h := mul_le_mul_of_nonneg_left (Real.sin_sq_le_one θ) h0
  linarith

lemma continuous_inner (m : ℝ) : Continuous (fun θ : ℝ => 1 - m * Real.sin θ ^ 2) := by
  continuity

lemma Eintegrand_continuous (m : ℝ) : Continuous (Eintegrand m) := by
  unfold Eintegrand
  exact Real.continuous_sqrt.comp (continuous_inner m)

lemma Kintegrand_continuous {m : ℝ} (h0 : 0 ≤ m) (h1 : m < 1) :
    Continuous (Kintegrand m) := by
  unfold Kintegrand
  refine Continuous.div continuous_const (Real.continuous_sqrt.comp (continuous_inner m)) ?_
  intro θ
  exact (Real.sqrt_pos.mpr (fact_pos h0 h1 θ)).ne'

lemma Kintegrand_intble {m : ℝ} (h0 : 0 ≤ m) (h1 : m < 1) (a b : ℝ) :
    IntervalIntegrable (Kintegrand m) volume a b :=
  (Kintegrand_continuous h0 h1).intervalIntegrable a b

lemma Eintegrand_intble (m a b : ℝ) :
    IntervalIntegrable (Eintegrand m) volume a b :=
  (Eintegrand_continuous m).intervalIntegrable a b

lemma sp_ellipkinc_m_zero (phi : ℝ) : sp_ellipkinc phi 0 = phi := by
  unfold sp_ellipkinc
  simp [Kintegrand]

lemma sp_ellipeinc_m_zero (phi : ℝ) : sp_ellipeinc phi 0 = phi := by
  unfold sp_ellipeinc
  simp [Eintegrand]

lemma sp_ellipk_zero : sp_ellipk 0 = π / 2 := by
  unfold sp_ellipk
  simp [Kintegrand]

lemma sp_ellipe_zero : sp_ellipe 0 = π / 2 := by
  unfold sp_ellipe
  simp [Eintegrand]

lemma Kintegrand_pos {m : ℝ} (h0 : 0 ≤ m) (h1 : m < 1) (θ : ℝ) :
    0 < Kintegrand m θ := by
  unfold Kintegrand
  exact one_div_pos.mpr (Real.sqrt_pos.mpr (fact_pos h0 h1 θ))

lemma Eintegrand_pos {m : ℝ} (h0 : 0 ≤ m) (h1 : m < 1) (θ : ℝ) :
    0 < Eintegrand m θ :=
  Real.sqrt_pos.mpr (fact_pos h0 h1 θ)

lemma sp_ellipk_pos {m : ℝ} (h0 : 0 ≤ m) (h1 : m < 1) : 0 < sp_ellipk m := by
  unfold sp_ellipk
  exact intervalIntegral.intervalIntegral_pos_of_pos_on (Kintegrand_intble h0 h1 0 (π / 2))
    (fun θ _ => Kintegrand_pos h0 h1 θ) Real.pi_div_two_pos

lemma sp_ellipe_pos {m : ℝ} (h0 : 0 ≤ m) (h1 : m < 1) : 0 < sp_ellipe m := by
  unfold sp_ellipe
  exact intervalIntegral.intervalIntegral_pos_of_pos_on (Eintegrand_intble m 0 (π / 2))
    (fun θ _ => Eintegrand_pos h0 h1 θ) Real.pi_div_two_pos

lemma Kintegrand_mono {m₁ m₂ : ℝ} (h0 : 0 ≤ m₁) (h12 : m₁ ≤ m₂) (h1 : m₂ < 1) (θ : ℝ) :
    Kintegrand m₁ θ ≤ Kintegrand m₂ θ := by
  unfold Kintegrand
  have hsub : 1 - m₂ * Real.sin θ ^ 2 ≤ 1 - m₁ * Real.sin θ ^ 2 := by
    have := mul_le_mul_of_nonneg_right h12 (sq_nonneg (Real.sin θ))
    linarith
  exact one_div_le_one_div_of_le (Real.sqrt_pos.mpr (fact_pos (h0.trans h12) h1 θ))
    (Real.sqrt_le_sqrt hsub)

lemma Eintegrand_anti {m₁ m₂ : ℝ} (h12 : m₁ ≤ m₂) (θ : ℝ) :
    Eintegrand m₂ θ ≤ Eintegrand m₁ θ := by
  unfold Eintegrand
  apply Real.sqrt_le_sqrt
  have := mul_le_mul_of_nonneg_right h12 (sq_nonneg (Real.sin θ))
  linarith

/-- C2: the complete integrals at m = 0, evaluated through the wrappers
on a scalar array, are exactly π/2. -/
theorem c2_complete_at_zero :
    (ellipk (scalarArr 0)).plain.data [] = π / 2 ∧
    (ellipe (scalarArr 0)).plain.data [] = π / 2 := by
  constructor
  · show sp_ellipk 0 = π / 2
    exact sp_ellipk_zero
  · show sp_ellipe 0 = π / 2
    exact sp_ellipe_zero

/-- C3: at m = 0 the incomplete integrals reduce to the identity in the
amplitude: the wrappers on scalar arrays return phi itself. -/
theorem c3_incomplete_identity_at_m_zero (phi : ℝ) :
    (∃ r, ellipkinc (scalarArr phi) (scalarArr 0) = Except.ok r ∧ r.plain.data [] = phi) ∧
    (∃ r, ellipeinc (scalarArr phi) (scalarArr 0) = Except.ok r ∧ r.plain.data [] = phi) := by
  constructor
  · refine ⟨_, lazy_apply2_ok _ _ _ _ (map2_ok sp_ellipkinc _ _ [] rfl), ?_⟩
    show sp_ellipkinc phi 0 = phi
    exact sp_ellipkinc_m_zero phi
  · refine ⟨_, lazy_apply2_ok _ _ _ _ (map2_ok sp_ellipeinc _ _ [] rfl), ?_⟩
    show sp_ellipeinc phi 0 = phi
    exact sp_ellipeinc_m_zero phi

/-- C4 (amended): on `[0, 1)` both complete integrals are finite, real
and positive; the first kind is monotonically non-decreasing in m, and
the second kind is monotonically non-increasing in m. -/
theorem c4_complete_pos_monotone (m m₁ m₂ : ℝ) (hm0 : 0 ≤ m) (hm1 : m < 1)
    (h0 : 0 ≤ m₁) (h12 : m₁ ≤ m₂) (h1 : m₂ < 1) :
    (0 < sp_ellipk m ∧ 0 < sp_ellipe m) ∧
    sp_ellipk m₁ ≤ sp_ellipk m₂ ∧ sp_ellipe m₂ ≤ sp_ellipe m₁ := by
  refine ⟨⟨sp_ellipk_pos hm0 hm1, sp_ellipe_pos hm0 hm1⟩, ?_, ?_⟩
  · unfold sp_ellipk
    exact intervalIntegral.integral_mono_on Real.pi_div_two_pos.le
      (Kintegrand_intble h0 (h12.trans_lt h1) 0 (π / 2))
      (Kintegrand_intble (h0.trans h12) h1 0 (π / 2))
      (fun θ _ => Kintegrand_mono h0 h12 h1 θ)
  · unfold sp_ellipe
    exact intervalIntegral.integral_mono_on Real.pi_div_two_pos.le
      (Eintegrand_intble m₂ 0 (π / 2))
      (Eintegrand_intble m₁ 0 (π / 2))
      (fun θ _ => Eintegrand_anti h12 θ)

/-- C4 witness: positivity and both monotonicity directions at the
concrete parameters m = 0 and m = 1/2. -/
theorem c4_complete_pos_monotone_witness :
    (0 < sp_ellipk 0 ∧ 0 < sp_ellipe 0) ∧
    sp_ellipk 0 ≤ sp_ellipk (1 / 2) ∧ sp_ellipe (1 / 2) ≤ sp_ellipe 0 :=
  c4_complete_pos_monotone 0 0 (1 / 2) (by norm_num) (by norm_num) (by norm_num)
    (by norm_num) (by norm_num)

lemma sp_ellipe_half_lt : sp_ellipe (1 / 2) < π / 2 := by
  have hint : IntervalIntegrable (fun θ => 1 - Eintegrand (1 / 2) θ) volume 0 (π / 2) :=
    (continuous_const.sub (Eintegrand_continuous (1 / 2))).intervalIntegrable 0 (π / 2)
  have hpos : 0 < ∫ θ in (0:ℝ)..(π / 2), (1 - Eintegrand (1 / 2) θ) := by
    refine intervalIntegral.intervalIntegral_pos_of_pos_on hint ?_ Real.pi_div_two_pos
    intro θ hθ
    have hs : 0 < Real.sin θ :=
      Real.sin_pos_of_pos_of_lt_pi hθ.1 (hθ.2.trans (half_lt_self Real.pi_pos))
    have hlt : 1 - (1 / 2 : ℝ) * Real.sin θ ^ 2 < 1 := by nlinarith
    have hnn : (0:ℝ) ≤ 1 - (1 / 2 : ℝ) * Real.sin θ ^ 2 := by
      nlinarith [Real.sin_sq_le_one θ]
    have h3 : Real.sqrt (1 - (1 / 2 : ℝ) * Real.sin θ ^ 2) < 1 := by
      have := Real.sqrt_lt_sqrt hnn hlt
      rwa [Real.sqrt_one] at this
    unfold Eintegrand
    linarith
  have hsplit : (∫ θ in (0:ℝ)..(π / 2), (1 - Eintegrand (1 / 2) θ))
      = π / 2 - sp_ellipe (1 / 2) := by
    rw [intervalIntegral.integral_sub intervalIntegrable_const (Eintegrand_intble (1 / 2) 0 (π / 2))]
    unfold sp_ellipe
    simp
  rw [hsplit] at hpos
  linarith

/-- C4 counterexample: the claim as stated is false for the second
kind — at m₁ = 0 ≤ m₂ = 1/2 < 1 the value strictly decreases, so
`CompleteSecondKind` is not monotonically non-decreasing on [0, 1). -/
theorem c4_counterexample : ¬ (sp_ellipe 0 ≤ sp_ellipe (1 / 2)) := by
  rw [sp_ellipe_zero]
  exact not_le.mpr sp_ellipe_half_lt

/-- C9: at amplitude π/2 the incomplete integrals coincide with the
complete ones for every m in [0, 1). -/
theorem c9_reduce_to_complete (m : ℝ) (h0 : 0 ≤ m) (h1 : m < 1) :
    sp_ellipkinc (π / 2) m = sp_ellipk m ∧ sp_ellipeinc (π / 2) m = sp_ellipe m :=
  ⟨rfl, rfl⟩

/-- C9 witness: the reduction at m = 0. -/
theorem c9_reduce_to_complete_witness :
    sp_ellipkinc (π / 2) 0 = sp_ellipk 0 ∧ sp_ellipeinc (π / 2) 0 = sp_ellipe 0 :=
  c9_reduce_to_complete 0 (by norm_num) (by norm_num)

lemma Kintegrand_one_not_intble :
    ¬ IntervalIntegrable (Kintegrand 1) volume 0 (π / 2) := by
  intro h
  have hIoc : Ι (0:ℝ) (π / 2) = Set.Ioc 0 (π / 2) :=
    Set.uIoc_of_le Real.pi_div_two_pos.le
  have hmeas : AEStronglyMeasurable (fun x : ℝ => (x - π / 2)⁻¹)
      (volume.restrict (Set.Ioc (0:ℝ) (π / 2))) :=
    ((measurable_id.sub measurable_const).inv).aestronglyMeasurable
  have hbound : (fun x => ‖(x - π / 2)⁻¹‖) ≤ᵐ[volume.restrict (Set.Ioc (0:ℝ) (π / 2))]
      fun x => ‖Kintegrand 1 x‖ := by
    refine (ae_restrict_iff' measurableSet_Ioc).mpr (Filter.Eventually.of_forall ?_)
    intro x hx
    rcases eq_or_lt_of_le hx.2 with heq | hlt
    · simp [heq]
    · have hcos : 0 < Real.cos x :=
        Real.cos_pos_of_mem_Ioo ⟨by linarith [hx.1], hlt⟩
      have hK : Kintegrand 1 x = 1 / Real.cos x := by
        unfold Kintegrand
        rw [one_mul, ← Real.cos_sq', Real.sqrt_sq hcos.le]
      have habs : |x - π / 2| = π / 2 - x := by
        rw [abs_of_nonpos (by linarith)]
        ring
      have hcos_le : Real.cos x ≤ π / 2 - x := by
        rw [← Real.sin_pi_div_two_sub]
        exact Real.sin_le (by linarith)
      show ‖(x - π / 2)⁻¹‖ ≤ ‖Kintegrand 1 x‖
      rw [Real.norm_eq_abs, Real.norm_eq_abs, abs_inv, habs, hK,
        abs_of_nonneg (by positivity : (0:ℝ) ≤ 1 / Real.cos x), ← one_div]
      exact one_div_le_one_div_of_le hcos hcos_le
  have h2 : IntervalIntegrable (fun x : ℝ => (x - π / 2)⁻¹) volume 0 (π / 2) :=
    h.mono_fun (by rw [Set.uIoc_of_le Real.pi_div_two_pos.le]; exact hmeas)
      (by rw [Set.uIoc_of_le Real.pi_div_two_pos.le]; exact hbound)
  rw [intervalIntegrable_sub_inv_iff] at h2
  rcases h2 with h2 | h2
  · exact Real.pi_div_two_pos.ne h2
  · exact h2 Set.right_mem_uIcc

/-- C8: at the singular point m = 1 the complete integral of the first
kind has no finite value — the Lebesgue integral of its defining
integrand over (0, π/2] is +∞ (the backend accordingly reports +inf or
a domain error rather than a finite number). -/
theorem c8_singular_at_one :
    (∫⁻ θ in Set.Ioc (0:ℝ) (π / 2), ENNReal.ofReal (Kintegrand 1 θ)) = ⊤ := by
  by_contra hne
  have hmeasK : AEStronglyMeasurable (Kintegrand 1)
      (volume.restrict (Set.Ioc (0:ℝ) (π / 2))) := by
    unfold Kintegrand
    exact (measurable_const.div
      (Real.continuous_sqrt.comp (continuous_inner 1)).measurable).aestronglyMeasurable
  have hnonneg : 0 ≤ᵐ[volume.restrict (Set.Ioc (0:ℝ) (π / 2))] Kintegrand 1 := by
    refine Filter.Eventually.of_forall ?_
    intro θ
    unfold Kintegrand
    positivity
  have hint : Integrable (Kintegrand 1) (volume.restrict (Set.Ioc (0:ℝ) (π / 2))) :=
    (lintegral_ofReal_ne_top_iff_integrable hmeasK hnonneg).mp hne
  have hII : IntervalIntegrable (Kintegrand 1) volume 0 (π / 2) := by
    rw [intervalIntegrable_iff, Set.uIoc_of_le Real.pi_div_two_pos.le]
    exact hint
  exact Kintegrand_one_not_intble hII

end SpecialElliptic
